import Mathlib

/-!
Shallow embedding of the todo-cli program (src/todo.py), a single-file
task-tracking command-line tool. The persisted store is a JSON file
(tasks.json) holding a list of task records; every command fully loads the
file, optionally mutates the in-memory list, and fully rewrites the file.

Modelling choices:
* A JSON value (the result of the Python json.load call) is modelled by the
  inductive type PyVal, covering exactly the values the json module can
  produce: null, booleans, integers, strings, lists and string-keyed dicts.
  Floats never occur in this program and are omitted.
* The persisted file is modelled by FileContent: the file is either missing,
  present with raw text that is not valid JSON (the case in which json.load
  raises JSONDecodeError), or present with text that parses to a JSON value.
  The textual JSON grammar itself belongs to the Python standard library, not
  to this repository, so parsing is abstracted into this three-way split; the
  raw text of an unparseable file is kept so concrete examples can name it.
* A well-formed task record is the structure Task with the four fields the
  program writes: id, description, status, created_at. The commands add,
  list, done and delete are translated as pure functions from the loaded task
  list to a CmdResult which records the resulting persisted store, whether
  save_tasks was called (wrote), the process exit code (typer.Exit(code=1)
  gives 1, normal return gives 0), and the console output. Console messages
  are modelled by the constructors of Msg rather than by raw markup strings.
* datetime.now() is passed in as an explicit string argument to add.
-/

namespace Todo

/-- JSON values as returned by the Python json.load call: null, booleans,
integers, strings, arrays and string-keyed objects. -/
inductive PyVal where
  | null : PyVal
  | bool : Bool → PyVal
  | int : Int → PyVal
  | str : String → PyVal
  | list : List PyVal → PyVal
  | dict : List (String × PyVal) → PyVal
deriving Repr

/-- State of the persisted tasks.json file: missing, present with raw text
that is not valid JSON, or present with text parsing to a JSON value. -/
inductive FileContent where
  | missing : FileContent
  | invalid : String → FileContent
  | json : PyVal → FileContent
deriving Repr

/-- Embeds load_tasks (src/todo.py lines 15-23): a missing file gives the
empty list, a JSONDecodeError gives the empty list, and otherwise the parsed
JSON value is returned unchanged, whatever its shape. -/
def load_tasks : FileContent → PyVal
  | FileContent.missing => PyVal.list []
  | FileContent.invalid _ => PyVal.list []
  | FileContent.json j => j

/-- Python truthiness of a loaded JSON value, used by the checks
if not tasks in src/todo.py: empty containers, empty strings, zero, false
and null are falsy. -/
def pyTruthy : PyVal → Bool
  | PyVal.null => false
  | PyVal.bool b => b
  | PyVal.int n => n != 0
  | PyVal.str s => s != ""
  | PyVal.list xs => !xs.isEmpty
  | PyVal.dict kvs => !kvs.isEmpty

/-- A task record, with the four fields the program writes in add
(src/todo.py lines 43-48). The status field holds the raw string stored in
the file; the program itself only ever writes "pending" and "done". -/
structure Task where
  id : Int
  description : String
  status : String
  created_at : String
deriving DecidableEq, Repr

/-- Encodes one task as the JSON object json.dump writes for it, with the
field order of the dict literal in add. -/
def encodeTask (t : Task) : PyVal :=
  PyVal.dict
    [("id", PyVal.int t.id), ("description", PyVal.str t.description),
     ("status", PyVal.str t.status), ("created_at", PyVal.str t.created_at)]

/-- Encodes a task list as the JSON array json.dump writes for it. -/
def encodeTasks (ts : List Task) : PyVal :=
  PyVal.list (ts.map encodeTask)

/-- Embeds save_tasks (src/todo.py lines 25-28): the file is rewritten in
full with the JSON serialization of the given task list. -/
def save_tasks (ts : List Task) : FileContent :=
  FileContent.json (encodeTasks ts)

/-- Looks a key up in a JSON object, as the subscript task of a string key
does on a Python dict. -/
def pyGet (kvs : List (String × PyVal)) (k : String) : Option PyVal :=
  (kvs.find? (fun p => p.1 == k)).map Prod.snd

/-- Reads one task record back from a JSON value: the record must be an
object whose id field is an integer and whose description, status and
created_at fields are strings. -/
def decodeTask (v : PyVal) : Option Task :=
  match v with
  | PyVal.dict kvs =>
    match pyGet kvs "id", pyGet kvs "description",
          pyGet kvs "status", pyGet kvs "created_at" with
    | Option.some (PyVal.int i), Option.some (PyVal.str d),
      Option.some (PyVal.str s), Option.some (PyVal.str c) =>
        Option.some (Task.mk i d s c)
    | _, _, _, _ => Option.none
  | _ => Option.none

/-- Reads a list of task records back from a list of JSON values, failing if
any element fails to decode. -/
def decodeTaskList : List PyVal → Option (List Task)
  | [] => Option.some []
  | v :: vs =>
    match decodeTask v, decodeTaskList vs with
    | Option.some t, Option.some ts => Option.some (t :: ts)
    | _, _ => Option.none

/-- Reads a whole store back from a loaded JSON value: the root must be an
array of well-formed task records. -/
def decodeStore (v : PyVal) : Option (List Task) :=
  match v with
  | PyVal.list vs => decodeTaskList vs
  | _ => Option.none

/-- Embeds the body of get_next_id (src/todo.py lines 30-35) as a function
of the loaded task list: 1 on an empty list, otherwise the maximum id plus
one, with the Python max computed by a fold over the nonempty list. -/
def get_next_id : List Task → Int
  | [] => 1
  | t :: ts => ts.foldl (fun m u => max m u.id) t.id + 1

/-- Console output, one constructor per console.print call in src/todo.py
plus one per rendered table row; the rich markup around each message is
presentation only and is not modelled. -/
inductive Msg where
  | noTasks : Msg
  | row : Int → String → String → Msg
  | added : String → Msg
  | notFound : Int → Msg
  | alreadyDone : Int → Msg
  | markedDone : Int → Msg
  | deleted : Int → Msg
deriving DecidableEq, Repr

/-- Result of running one command on the loaded task list: the persisted
store after the command, whether save_tasks was called, the process exit
code and the console output. -/
structure CmdResult where
  store : List Task
  wrote : Bool
  exitCode : Nat
  output : List Msg
deriving DecidableEq, Repr

/-- Embeds the add command (src/todo.py lines 39-51): builds a new task with
a fresh id from get_next_id, status pending and the current timestamp,
appends it and saves the full list. The now argument stands for the
formatted datetime.now() value. -/
def add (description : String) (now : String) (ts : List Task) : CmdResult :=
  let new : Task := Task.mk (get_next_id ts) description "pending" now
  CmdResult.mk (ts ++ [new]) true 0 [Msg.added description]

/-- The status cell rendered for one row of the list table (src/todo.py
lines 75-77): colour, icon and capitalized status label. -/
def statusText (st : String) : String :=
  if st == "done" then "[green]✅ " ++ st.capitalize ++ "[/green]"
  else "[yellow]⏳ " ++ st.capitalize ++ "[/yellow]"

/-- The table row rendered for one task (src/todo.py lines 79-83). -/
def rowOf (t : Task) : Msg :=
  Msg.row t.id (statusText t.status) t.description

/-- Embeds the row loop of the list command (src/todo.py lines 71-83): walk
the sorted task list, skip done tasks when hide_done is set, and render a
row for every other task. -/
def renderRows (hide_done : Bool) : List Task → List Msg
  | [] => []
  | t :: ts =>
    if hide_done && t.status == "done" then renderRows hide_done ts
    else rowOf t :: renderRows hide_done ts

/-- Python sorted(tasks, key=lambda x: x['id']): a stable sort by ascending
id, modelled by insertion sort, which is also stable. -/
def sortById (ts : List Task) : List Task :=
  ts.insertionSort (fun a b => a.id ≤ b.id)

/-- Embeds the list command (src/todo.py lines 54-84): prints a notice when
the loaded list is empty, otherwise renders the table of rows in ascending
id order; the store is never written. -/
def list (hide_done : Bool) (ts : List Task) : CmdResult :=
  if ts.isEmpty then CmdResult.mk ts false 0 [Msg.noTasks]
  else CmdResult.mk ts false 0 (renderRows hide_done (sortById ts))

/-- The in-place status mutation of the done command: the first task whose
id matches is replaced by the same task with status done, mirroring the
mutation of the dict found by next(...) in src/todo.py line 100. -/
def markFirst (k : Int) : List Task → List Task
  | [] => []
  | t :: ts =>
    if t.id == k then { t with status := "done" } :: ts
    else t :: markFirst k ts

/-- Embeds the done command (src/todo.py lines 88-102): finds the first task
with the given id; if none, reports not found and exits with status 1
writing nothing; if it is already done, warns and writes nothing; otherwise
sets its status to done and saves the full list. -/
def done (task_id : Int) (ts : List Task) : CmdResult :=
  match ts.find? (fun t => t.id == task_id) with
  | Option.none => CmdResult.mk ts false 1 [Msg.notFound task_id]
  | Option.some t =>
    if t.status == "done" then
      CmdResult.mk ts false 0 [Msg.alreadyDone task_id]
    else
      CmdResult.mk (markFirst task_id ts) true 0 [Msg.markedDone task_id]

/-- Embeds the delete command (src/todo.py lines 106-118): keeps every task
whose id differs from the given one; if the length is unchanged, reports not
found and exits with status 1 writing nothing; otherwise saves the filtered
list. -/
def delete (task_id : Int) (ts : List Task) : CmdResult :=
  let kept := ts.filter (fun t => t.id != task_id)
  if kept.length = ts.length then
    CmdResult.mk ts false 1 [Msg.notFound task_id]
  else
    CmdResult.mk kept true 0 [Msg.deleted task_id]

/-- Sample pending task used in concrete witnesses. -/
def sampleA : Task := Task.mk 1 "buy milk" "pending" "2024-01-01 09:00"

/-- Sample completed task used in concrete witnesses. -/
def sampleB : Task := Task.mk 2 "walk dog" "done" "2024-01-01 10:00"

lemma foldl_max_init_le (ts : List Task) (a : Int) :
    a ≤ ts.foldl (fun m u => max m u.id) a := by
  induction ts generalizing a with
  | nil => exact le_refl a
  | cons t ts ih => exact le_trans (le_max_left a t.id) (ih (max a t.id))

lemma mem_le_foldl_max {u : Task} :
    ∀ (ts : List Task) (a : Int), u ∈ ts →
      u.id ≤ ts.foldl (fun m v => max m v.id) a := by
  intro ts
  induction ts with
  | nil => intro a h; cases h
  | cons t ts ih =>
    intro a h
    rcases List.mem_cons.mp h with h | h
    · subst h
      exact le_trans (le_max_right a u.id) (foldl_max_init_le ts (max a u.id))
    · exact ih (max a t.id) h

lemma foldl_max_eq_init_or_mem :
    ∀ (ts : List Task) (a : Int),
      ts.foldl (fun m v => max m v.id) a = a ∨
        ∃ u ∈ ts, ts.foldl (fun m v => max m v.id) a = u.id := by
  intro ts
  induction ts with
  | nil => intro a; exact Or.inl rfl
  | cons t ts ih =>
    intro a
    rcases ih (max a t.id) with h | ⟨u, hu, heq⟩
    · rcases max_choice a t.id with hm | hm
      · exact Or.inl (by simpa [List.foldl_cons, hm] using h)
      · exact Or.inr ⟨t, List.mem_cons_self t ts, by simpa [List.foldl_cons, hm] using h⟩
    · exact Or.inr ⟨u, List.mem_cons_of_mem t hu, by simpa [List.foldl_cons] using heq⟩

lemma id_lt_get_next_id {u : Task} {ts : List Task} (h : u ∈ ts) :
    u.id < get_next_id ts := by
  cases ts with
  | nil => cases h
  | cons t rest =>
    have hle : u.id ≤ rest.foldl (fun m v => max m v.id) t.id := by
      rcases List.mem_cons.mp h with h | h
      · subst h; exact foldl_max_init_le rest u.id
      · exact mem_le_foldl_max rest t.id h
    exact Int.lt_add_one_iff.mpr hle

lemma markFirst_map_id (k : Int) (ts : List Task) :
    (markFirst k ts).map Task.id = ts.map Task.id := by
  induction ts with
  | nil => rfl
  | cons t ts ih =>
    by_cases h : t.id == k
    · simp [markFirst, h]
    · simp [markFirst, h, ih]

lemma find?_eq_some_of_nodup {ts : List Task} {t : Task} {k : Int}
    (hn : (ts.map Task.id).Nodup) (ht : t ∈ ts) (hk : t.id = k) :
    ts.find? (fun u => u.id == k) = Option.some t := by
  induction ts with
  | nil => cases ht
  | cons h rest ih =>
    rw [List.map_cons, List.nodup_cons] at hn
    by_cases hh : h.id = k
    · have : t = h := by
        rcases List.mem_cons.mp ht with h1 | h1
        · exact h1
        · exfalso
          apply hn.1
          rw [hh, ← hk]
          exact List.mem_map_of_mem Task.id h1
      subst this
      rw [List.find?_cons_of_pos _ (by simpa using hh)]
    · have ht' : t ∈ rest := by
        rcases List.mem_cons.mp ht with h1 | h1
        · exact absurd (h1 ▸ hk) hh
        · exact h1
      rw [List.find?_cons_of_neg _ (by simpa using hh)]
      exact ih hn.2 ht'

lemma map_update_eq_self {k : Int} :
    ∀ (l : List Task), (∀ u ∈ l, u.id ≠ k) →
      l.map (fun u => if u.id = k then { u with status := "done" } else u) = l := by
  intro l
  induction l with
  | nil => intro _; rfl
  | cons t ts ih =>
    intro h
    have ht : t.id ≠ k := h t (List.mem_cons_self t ts)
    simp only [List.map_cons, if_neg ht]
    rw [ih (fun u hu => h u (List.mem_cons_of_mem t hu))]

lemma markFirst_eq_map_of_nodup {ts : List Task} {t : Task} {k : Int}
    (hn : (ts.map Task.id).Nodup) (ht : t ∈ ts) (hk : t.id = k) :
    markFirst k ts =
      ts.map (fun u => if u.id = k then { u with status := "done" } else u) := by
  induction ts with
  | nil => cases ht
  | cons h rest ih =>
    rw [List.map_cons, List.nodup_cons] at hn
    by_cases hh : h.id = k
    · have hrest : ∀ u ∈ rest, u.id ≠ k := by
        intro u hu hue
        exact hn.1 (by rw [hh, ← hue]; exact List.mem_map_of_mem Task.id hu)
      simp [markFirst, hh, map_update_eq_self rest hrest]
    · have ht' : t ∈ rest := by
        rcases List.mem_cons.mp ht with h1 | h1
        · exact absurd (h1 ▸ hk) hh
        · exact h1
      simp [markFirst, hh, ih hn.2 ht']

lemma renderRows_eq_filter_map (hd : Bool) (ts : List Task) :
    renderRows hd ts =
      (ts.filter (fun t => !(hd && t.status == "done"))).map rowOf := by
  induction ts with
  | nil => rfl
  | cons t ts ih =>
    by_cases h : (hd && t.status == "done") = true
    · simp only [renderRows, if_pos h]
      rw [ih, List.filter_cons, if_neg (by simp [h])]
    · have hb : (hd && t.status == "done") = false := Bool.eq_false_iff.mpr h
      simp only [renderRows, if_neg h]
      rw [ih, List.filter_cons, if_pos (by rw [hb]; rfl), List.map_cons]

lemma le_foldl_of_mem_cons {u h : Task} {rest : List Task} (hu : u ∈ h :: rest) :
    u.id ≤ rest.foldl (fun m v => max m v.id) h.id := by
  rcases List.mem_cons.mp hu with h1 | h1
  · subst h1; exact foldl_max_init_le rest u.id
  · exact mem_le_foldl_max rest h.id h1

lemma decodeTask_encodeTask (t : Task) : decodeTask (encodeTask t) = Option.some t := by
  rfl

lemma decodeTaskList_encode (ts : List Task) :
    decodeTaskList (ts.map encodeTask) = Option.some ts := by
  induction ts with
  | nil => rfl
  | cons t ts ih => simp [List.map_cons, decodeTaskList, decodeTask_encodeTask, ih]

/-- C1 counterexample: the spec says ids are never reused after deletion, but
the code recomputes the next id as one plus the maximum remaining id. On the
one-task store holding sampleA (id 1, unique ids), delete 1 empties the
store, and the very next add is assigned id 1 again. -/
theorem C1_counterexample :
    (([sampleA].map Task.id).Nodup) ∧
    (delete 1 [sampleA]).store = [] ∧
    (delete 1 [sampleA]).wrote = true ∧
    (add "walk dog" "2024-01-02 09:00" ((delete 1 [sampleA]).store)).store
      = [Task.mk 1 "walk dog" "pending" "2024-01-02 09:00"] := by
  refine ⟨by decide, by decide, by decide, by decide⟩

/-- C1 (amended): after delete(k), a subsequent add assigns one plus the
maximum remaining id, so it can reassign a deleted id k; id k is guaranteed
not to be reused exactly when some task with id at least k remains in the
store after the deletion. -/
theorem C1_no_reuse_of_le_remaining :
    ∀ (ts : List Task) (k : Int),
      (∃ t ∈ (delete k ts).store, k ≤ t.id) →
      get_next_id ((delete k ts).store) ≠ k := by
  intro ts k h heq
  rcases h with ⟨t, ht, hk⟩
  have hlt := id_lt_get_next_id ht
  omega

/-- Witness for C1 (amended): deleting id 1 from the two-task store leaves
sampleB, whose id 2 is at least 1, and the next assigned id is 3, not 1. -/
theorem C1_no_reuse_witness :
    get_next_id ((delete 1 [sampleA, sampleB]).store) ≠ 1 :=
  C1_no_reuse_of_le_remaining [sampleA, sampleB] 1 ⟨sampleB, by decide, by decide⟩

/-- C2: a missing file and any unparseable file content load as the empty
task list; in particular the raw text `not valid json` (which json.load
rejects) loads as the empty store, list on the empty store prints the
no-tasks notice, and a subsequent add succeeds and assigns id 1 with status
pending. -/
theorem C2_corrupt_file_tolerance :
    (∀ s : String, load_tasks (FileContent.invalid s) = PyVal.list []) ∧
    load_tasks FileContent.missing = PyVal.list [] ∧
    load_tasks (FileContent.invalid "not valid json") = encodeTasks [] ∧
    decodeStore (load_tasks (FileContent.invalid "not valid json")) = Option.some [] ∧
    (∀ hd : Bool, Todo.list hd [] = CmdResult.mk [] false 0 [Msg.noTasks]) ∧
    (∀ now : String,
      add "buy milk" now [] =
        CmdResult.mk [Task.mk 1 "buy milk" "pending" now] true 0 [Msg.added "buy milk"]) :=
  ⟨fun _ => rfl, rfl, rfl, rfl, fun _ => rfl, fun _ => rfl⟩

/-- C3: get_next_id returns 1 on the empty task list, and on a nonempty list
it returns the id of a maximal task (a member whose id bounds every other id)
plus one. -/
theorem C3_next_id_spec :
    get_next_id ([] : List Task) = 1 ∧
    ∀ ts : List Task, ts ≠ [] →
      ∃ t, t ∈ ts ∧ (∀ u ∈ ts, u.id ≤ t.id) ∧ get_next_id ts = t.id + 1 := by
  refine ⟨rfl, ?_⟩
  intro ts hne
  cases ts with
  | nil => exact absurd rfl hne
  | cons h rest =>
    have hub : ∀ u ∈ h :: rest, u.id ≤ rest.foldl (fun m v => max m v.id) h.id :=
      fun u hu => le_foldl_of_mem_cons hu
    rcases foldl_max_eq_init_or_mem rest h.id with hm | ⟨u, hu, hm⟩
    · refine ⟨h, List.mem_cons_self h rest, fun u hu2 => hm ▸ hub u hu2, ?_⟩
      show rest.foldl (fun m v => max m v.id) h.id + 1 = h.id + 1
      rw [hm]
    · refine ⟨u, List.mem_cons_of_mem h hu, fun v hv => hm ▸ hub v hv, ?_⟩
      show rest.foldl (fun m v => max m v.id) h.id + 1 = u.id + 1
      rw [hm]

/-- Witness for C3 at the concrete nonempty store holding sampleA and
sampleB. -/
theorem C3_next_id_spec_witness :
    ∃ t, t ∈ [sampleA, sampleB] ∧ (∀ u ∈ [sampleA, sampleB], u.id ≤ t.id) ∧
      get_next_id [sampleA, sampleB] = t.id + 1 :=
  C3_next_id_spec.2 [sampleA, sampleB] (List.cons_ne_nil _ _)

/-- C5: when no task has the requested id, done and delete both return the
store unchanged, call no save, exit with status 1, and print the not-found
error. -/
theorem C5_not_found_symmetry :
    ∀ (ts : List Task) (k : Int), (∀ t ∈ ts, t.id ≠ k) →
      done k ts = CmdResult.mk ts false 1 [Msg.notFound k] ∧
      delete k ts = CmdResult.mk ts false 1 [Msg.notFound k] := by
  intro ts k h
  constructor
  · have hf : ts.find? (fun t => t.id == k) = Option.none := by
      apply List.find?_eq_none.mpr
      intro t ht
      simpa using h t ht
    simp [done, hf]
  · have hfil : ts.filter (fun t => t.id != k) = ts := by
      apply List.filter_eq_self.mpr
      intro t ht
      simpa using h t ht
    simp [delete, hfil]

/-- Witness for C5: id 5 is absent from the two-task store. -/
theorem C5_not_found_symmetry_witness :
    done 5 [sampleA, sampleB] = CmdResult.mk [sampleA, sampleB] false 1 [Msg.notFound 5] ∧
    delete 5 [sampleA, sampleB] = CmdResult.mk [sampleA, sampleB] false 1 [Msg.notFound 5] :=
  C5_not_found_symmetry [sampleA, sampleB] 5 (by decide)

instance : IsTotal Task (fun a b : Task => a.id ≤ b.id) :=
  ⟨fun a b => le_total a.id b.id⟩

instance : IsTrans Task (fun a b : Task => a.id ≤ b.id) :=
  ⟨fun _ _ _ h1 h2 => le_trans h1 h2⟩

/-- C4: starting from any store with pairwise distinct task ids, the stores
produced by add, done and delete again have pairwise distinct task ids. -/
theorem C4_id_uniqueness_invariant :
    ∀ (ts : List Task) (d now : String) (k : Int), (ts.map Task.id).Nodup →
      ((add d now ts).store.map Task.id).Nodup ∧
      ((done k ts).store.map Task.id).Nodup ∧
      ((delete k ts).store.map Task.id).Nodup := by
  intro ts d now k hn
  refine ⟨?_, ?_, ?_⟩
  · show ((ts ++ [Task.mk (get_next_id ts) d "pending" now]).map Task.id).Nodup
    rw [List.map_append, List.nodup_append]
    refine ⟨hn, List.nodup_singleton _, fun a ha hb => ?_⟩
    rcases List.mem_map.mp ha with ⟨u, hu, hua⟩
    have hlt := id_lt_get_next_id hu
    have hae : a = get_next_id ts := by simpa using hb
    omega
  · cases hf : ts.find? (fun t => t.id == k) with
    | none => simpa [done, hf] using hn
    | some t =>
      by_cases hs : (t.status == "done") = true
      · simpa [done, hf, hs] using hn
      · have : (done k ts).store = markFirst k ts := by simp [done, hf, hs]
        rw [this, markFirst_map_id]
        exact hn
  · by_cases hl : (ts.filter (fun t => t.id != k)).length = ts.length
    · simpa [delete, hl] using hn
    · have : (delete k ts).store = ts.filter (fun t => t.id != k) := by
        simp [delete, hl]
      rw [this]
      have hsub : ((ts.filter (fun t => t.id != k)).map Task.id).Sublist (ts.map Task.id) :=
        (List.filter_sublist ts).map Task.id
      exact List.Nodup.sublist hsub hn

/-- Witness for C4 at the concrete two-task store with distinct ids. -/
theorem C4_id_uniqueness_witness :
    ((add "read" "2024-01-03 09:00" [sampleA, sampleB]).store.map Task.id).Nodup ∧
    ((done 1 [sampleA, sampleB]).store.map Task.id).Nodup ∧
    ((delete 1 [sampleA, sampleB]).store.map Task.id).Nodup :=
  C4_id_uniqueness_invariant [sampleA, sampleB] "read" "2024-01-03 09:00" 1 (by decide)

/-- C6: on a store whose statuses are all pending or done, the list command
renders with hide_done exactly the pending tasks of the id-sorted store, and
without hide_done all tasks of the id-sorted store; the sorted store is a
permutation of the store, sorted by ascending id, and list never changes or
writes the store. -/
theorem C6_filter_correctness :
    ∀ (ts : List Task) (hd : Bool),
      (∀ t ∈ ts, t.status = "pending" ∨ t.status = "done") →
      renderRows true (sortById ts) =
        ((sortById ts).filter (fun t => t.status == "pending")).map rowOf ∧
      renderRows false (sortById ts) = (sortById ts).map rowOf ∧
      (sortById ts).Perm ts ∧
      List.Sorted (fun a b : Task => a.id ≤ b.id) (sortById ts) ∧
      (Todo.list hd ts).store = ts ∧ (Todo.list hd ts).wrote = false := by
  intro ts hd hwf
  have hperm : (sortById ts).Perm ts := List.perm_insertionSort _ ts
  refine ⟨?_, ?_, hperm, List.sorted_insertionSort _ ts, ?_, ?_⟩
  · rw [renderRows_eq_filter_map]
    congr 1
    apply List.filter_congr
    intro t ht
    rcases hwf t (hperm.mem_iff.mp ht) with h | h <;> rw [h] <;> decide
  · rw [renderRows_eq_filter_map]
    simp
  · show (Todo.list hd ts).store = ts
    unfold Todo.list
    split <;> rfl
  · show (Todo.list hd ts).wrote = false
    unfold Todo.list
    split <;> rfl

/-- Witness for C6 at the concrete store listing sampleB before sampleA. -/
theorem C6_filter_correctness_witness :
    renderRows true (sortById [sampleB, sampleA]) =
      ((sortById [sampleB, sampleA]).filter (fun t => t.status == "pending")).map rowOf ∧
    renderRows false (sortById [sampleB, sampleA]) = (sortById [sampleB, sampleA]).map rowOf ∧
    (sortById [sampleB, sampleA]).Perm [sampleB, sampleA] ∧
    List.Sorted (fun a b : Task => a.id ≤ b.id) (sortById [sampleB, sampleA]) ∧
    (Todo.list true [sampleB, sampleA]).store = [sampleB, sampleA] ∧
    (Todo.list true [sampleB, sampleA]).wrote = false :=
  C6_filter_correctness [sampleB, sampleA] true (by decide)

/-- C7: on a store with distinct ids containing a pending task t with id k,
done k replaces exactly that task by the same task with status done, leaving
every other task and the id, description and created_at fields of t intact,
and it saves the store and exits with status 0. -/
theorem C7_done_pending_updates :
    ∀ (ts : List Task) (t : Task) (k : Int),
      (ts.map Task.id).Nodup → t ∈ ts → t.id = k → t.status = "pending" →
      (done k ts).store =
        ts.map (fun u => if u.id = k then { u with status := "done" } else u) ∧
      { t with status := "done" } ∈ (done k ts).store ∧
      (done k ts).wrote = true ∧ (done k ts).exitCode = 0 := by
  intro ts t k hn ht hk hs
  have hf := find?_eq_some_of_nodup hn ht hk
  have hnd : ¬(t.status == "done") = true := by rw [hs]; decide
  have hstore : (done k ts).store = markFirst k ts := by simp [done, hf, hnd]
  rw [hstore, markFirst_eq_map_of_nodup hn ht hk]
  have hft : (fun u => if u.id = k then { u with status := "done" } else u) t
      = { t with status := "done" } := by simp [hk]
  refine ⟨rfl, ?_, ?_, ?_⟩
  · rw [← hft]
    exact List.mem_map_of_mem _ ht
  · simp [done, hf, hnd]
  · simp [done, hf, hnd]

/-- Witness for C7: completing the pending task sampleA in the two-task
store. -/
theorem C7_done_pending_witness :
    (done 1 [sampleA, sampleB]).store =
      [sampleA, sampleB].map (fun u => if u.id = 1 then { u with status := "done" } else u) ∧
    { sampleA with status := "done" } ∈ (done 1 [sampleA, sampleB]).store ∧
    (done 1 [sampleA, sampleB]).wrote = true ∧ (done 1 [sampleA, sampleB]).exitCode = 0 :=
  C7_done_pending_updates [sampleA, sampleB] sampleA 1 (by decide) (by decide) rfl rfl

/-- C8: on a store with distinct ids containing a task t with id k, if t is
already done then done k warns, writes nothing, exits with status 0 and
leaves the store unchanged; and if t is pending, then after a first done k
the task is stored as done and a second done k returns the saved store
unchanged, writing nothing, with exit status 0 and the already-done
warning. -/
theorem C8_idempotent_completion :
    ∀ (ts : List Task) (t : Task) (k : Int),
      (ts.map Task.id).Nodup → t ∈ ts → t.id = k →
      (t.status = "done" →
        done k ts = CmdResult.mk ts false 0 [Msg.alreadyDone k]) ∧
      (t.status = "pending" →
        { t with status := "done" } ∈ (done k ts).store ∧
        done k ((done k ts).store) =
          CmdResult.mk ((done k ts).store) false 0 [Msg.alreadyDone k]) := by
  intro ts t k hn ht hk
  have hf := find?_eq_some_of_nodup hn ht hk
  constructor
  · intro hs
    simp [done, hf, hs]
  · intro hs
    have hnd : ¬(t.status == "done") = true := by rw [hs]; decide
    have hstore : (done k ts).store = markFirst k ts := by simp [done, hf, hnd]
    have hft : (fun u => if u.id = k then { u with status := "done" } else u) t
        = { t with status := "done" } := by simp [hk]
    have hmem : { t with status := "done" } ∈ (done k ts).store := by
      rw [hstore, markFirst_eq_map_of_nodup hn ht hk, ← hft]
      exact List.mem_map_of_mem _ ht
    have hn' : (((done k ts).store).map Task.id).Nodup := by
      rw [hstore, markFirst_map_id]
      exact hn
    have hf' := find?_eq_some_of_nodup hn' hmem (show ({ t with status := "done" } : Task).id = k from hk)
    refine ⟨hmem, ?_⟩
    generalize hS : (done k ts).store = S at hf' ⊢
    simp [done, hf']

/-- Witness for C8: a first done on the pending task sampleA stores it as
done and a second done on the same id writes nothing; done on the already
completed sampleB writes nothing at once. -/
theorem C8_idempotent_completion_witness :
    done 2 [sampleA, sampleB] = CmdResult.mk [sampleA, sampleB] false 0 [Msg.alreadyDone 2] ∧
    ({ sampleA with status := "done" } ∈ (done 1 [sampleA, sampleB]).store ∧
      done 1 ((done 1 [sampleA, sampleB]).store) =
        CmdResult.mk ((done 1 [sampleA, sampleB]).store) false 0 [Msg.alreadyDone 1]) :=
  ⟨(C8_idempotent_completion [sampleA, sampleB] sampleB 2 (by decide) (by decide) rfl).1 rfl,
   (C8_idempotent_completion [sampleA, sampleB] sampleA 1 (by decide) (by decide) rfl).2 rfl⟩

/-- C9: saving any task list and immediately loading the written file yields
a JSON value that decodes back to exactly the same list: same ids,
descriptions, statuses and timestamps in the same order. -/
theorem C9_save_load_round_trip :
    ∀ ts : List Task, decodeStore (load_tasks (save_tasks ts)) = Option.some ts := by
  intro ts
  show decodeTaskList (ts.map encodeTask) = Option.some ts
  exact decodeTaskList_encode ts

/-- C10: file content that parses as valid JSON but whose root is not an
array (here the JSON string whose raw file text is the quoted form of
not valid json) is returned by load unchanged, not normalized to the empty
list: it is not the empty JSON array, it decodes to no task list, and the
commands see it as a truthy (nonempty) store, so the list command does not
take its no-tasks branch. -/
theorem C10_valid_json_non_sequence_root :
    load_tasks (FileContent.json (PyVal.str "not valid json")) = PyVal.str "not valid json" ∧
    PyVal.str "not valid json" ≠ PyVal.list [] ∧
    decodeStore (PyVal.str "not valid json") = Option.none ∧
    pyTruthy (load_tasks (FileContent.json (PyVal.str "not valid json"))) = true :=
  ⟨rfl, fun h => PyVal.noConfusion h, rfl, rfl⟩

end Todo
